import Mathlib

/-!
# Verification of the ASL recognizer's model-selection framework

Shallow embedding of `src/my_model_selectors.py` and `src/my_recognizer.py`.

Conventions of the embedding:
* Python floats produced as log-likelihood scores are modelled as rationals
  (`ℚ`); the sentinel `float('-inf')` is modelled by `none` in `Option ℚ`
  (type `LogL` below), and `float('inf')` (the initial `lowest_BIC`) by
  `none` in the accumulator of the BIC loop.
* The external collaborators (hmmlearn's `GaussianHMM.fit`, `model.score`,
  `np.log`) are collected in an `Env` record.  A trained model is an opaque
  handle (`Model := Nat`).  `fit` and `score` may raise, which is modelled
  by `Except PyErr`.  The fixed `random_state` seed makes fitting
  deterministic, so the trainer is a function of the data and state count.
* Python exceptions are modelled with `Except PyErr`; a value of type
  `Option Model` models a Python variable that is either a model or `None`.
* Python dicts (`self.hwords`, the `models` argument of `recognize`) are
  modelled as association lists in insertion order; dict keys are unique.
-/

/-- The Python exceptions that the embedded code can raise or catch. -/
inductive PyErr where
  /-- `ValueError` raised by sklearn's `KFold.split` when
      `n_splits > n_samples`. -/
  | valueError
  /-- `KeyError` from a failed dict lookup. -/
  | keyError
  /-- `IndexError` from indexing an empty list (`sorted(...)[0]`,
      `self.X[0]`). -/
  | indexError
  /-- `statistics.StatisticsError` from `statistics.mean([])`. -/
  | statisticsError
  /-- `AttributeError` from calling `.score` on `None`. -/
  | attributeError
  /-- an exception raised inside an external `model.score` call. -/
  | scoreError
  /-- an exception raised inside the external `GaussianHMM(...).fit` call. -/
  | fitError
  deriving DecidableEq, Repr

/-- A trained `GaussianHMM` is opaque to this code: an abstract handle. -/
abbrev Model := Nat

/-- `ConcatenatedSequences`: the flattened feature matrix `X` together with
the parallel list of per-sequence `lengths` (the pair stored in
`all_word_Xlengths[word]` and in `self.X, self.lengths`). -/
structure XL where
  X : List (List ℚ)
  lengths : List Nat
  deriving DecidableEq, Repr

/-- The external collaborators of the selectors/recognizer. -/
structure Env where
  /-- `GaussianHMM(n_components=·, ..., random_state=fixed).fit(X, lengths)`:
      returns a trained model or raises.  Deterministic because the seed is
      fixed. -/
  trainer : XL → Nat → Except PyErr Model
  /-- `model.score(X, lengths)`: a log-likelihood, or an exception. -/
  scorer : Model → XL → Except PyErr ℚ
  /-- `np.log` on natural number arguments (only `np.log(N)` is used). -/
  ln : Nat → ℚ

/-- The fields of `ModelSelector` that the embedded methods read
(`self.words`, `random_state` and `verbose` are not used by the embedded
computations: `random_state` is folded into `Env.trainer`, `verbose` only
prints).  A sequence is a list of frames, each frame a feature vector. -/
structure Selector where
  /-- `self.hwords = all_word_Xlengths`: word → concatenated data. -/
  hwords : List (String × XL)
  /-- `self.sequences = all_word_sequences[this_word]`. -/
  sequences : List (List (List ℚ))
  /-- `self.X, self.lengths`: the active training data, initially
      `all_word_Xlengths[this_word]`. -/
  xl : XL
  this_word : String
  n_constant : Nat
  min_n_components : Nat
  max_n_components : Nat
  deriving DecidableEq, Repr

instance {ε α : Type} [DecidableEq ε] [DecidableEq α] : DecidableEq (Except ε α) := fun a b =>
  match a, b with
  | .ok x, .ok y =>
      if h : x = y then isTrue (by rw [h]) else isFalse (fun hc => by cases hc; exact h rfl)
  | .ok _, .error _ => isFalse (fun hc => by cases hc)
  | .error _, .ok _ => isFalse (fun hc => by cases hc)
  | .error e, .error e' =>
      if h : e = e' then isTrue (by rw [h]) else isFalse (fun hc => by cases hc; exact h rfl)

/-- A Python float holding a log-likelihood: a rational, or `float('-inf')`
(modelled as `none`). -/
abbrev LogL := Option ℚ

/-- Python `>` on such floats: `-inf > -inf` is `False`, any finite value is
`> -inf`. -/
def lgt : LogL → LogL → Bool
  | some x, some y => decide (y < x)
  | some _, none => true
  | none, _ => false

/-- Python `<=` on such floats (the negation of `lgt`, as floats are totally
ordered here; no NaN is produced by the embedded code). -/
def lle (a b : LogL) : Bool := !(lgt a b)

/-- Python `x < lowest` where `lowest` is a float that is either finite or
the initial `float('inf')` (modelled as `none`). -/
def ltTop : ℚ → Option ℚ → Bool
  | _, none => true
  | x, some y => decide (x < y)

/-- `statistics.mean` on a nonempty list of rationals. -/
def statistics_mean (l : List ℚ) : ℚ := l.sum / (l.length : ℚ)

/-- Evaluate a Python list comprehension whose elements may raise: the first
exception propagates, otherwise the list of values is returned. -/
def mapExcept (f : α → Except PyErr β) : List α → Except PyErr (List β)
  | [] => .ok []
  | a :: l =>
    match f a with
    | .error e => .error e
    | .ok b =>
      match mapExcept f l with
      | .error e => .error e
      | .ok bs => .ok (b :: bs)

/-- The body of `ModelSelector.base_model`, for a given active training set:
`try: return GaussianHMM(...).fit(X, lengths) except: return None`. -/
def fitXL (env : Env) (xl : XL) (num_states : Nat) : Option Model :=
  match env.trainer xl num_states with
  | .ok m => some m
  | .error _ => none

/-- `ModelSelector.base_model(num_states)`: fit on the currently active
`self.X, self.lengths`; any exception is caught and `None` is returned. -/
def base_model (env : Env) (s : Selector) (num_states : Nat) : Option Model :=
  fitXL env s.xl num_states

/-- `model.score(X, lengths)` where `model` may be `None` (in which case
Python raises `AttributeError`). -/
def scoreOpt (env : Env) (model : Option Model) (xl : XL) : Except PyErr ℚ :=
  match model with
  | none => .error .attributeError
  | some m => env.scorer m xl

/-- `range(self.min_n_components, self.max_n_components + 1)`, the
`n_components_range` computed by each selector. -/
def n_components_range (s : Selector) : List Nat :=
  List.range' s.min_n_components (s.max_n_components + 1 - s.min_n_components)

/-- `SelectorConstant.select()`. -/
def selectConstant (env : Env) (s : Selector) : Option Model :=
  base_model env s s.n_constant

/-! ## SelectorBIC -/

/-- The loop of `SelectorBIC.select` over `n_components_range`, carrying
`(lowest_BIC, best_model)`.  The second component of the result records the
state counts for which a fit was attempted inside the loop (instrumentation
for the early-exit property; it does not influence the returned model). -/
def bicLoop (env : Env) (s : Selector) :
    List Nat → Option ℚ × Option Model → Except PyErr (Option Model) × List Nat
  | [], acc => (.ok acc.2, [])
  | num_compoments :: rest, acc =>
    let model := base_model env s num_compoments
    match scoreOpt env model s.xl with
    | .error _ => (.ok acc.2, [num_compoments])   -- `except: break`
    | .ok logL =>
      match s.xl.X with
      | [] => (.error .indexError, [num_compoments])   -- `self.X[0]` raises
      | r0 :: _ =>
        let p := num_compoments * (num_compoments - 1) + 2 * num_compoments * r0.length
        let N := s.xl.lengths.length
        let BIC := -2 * logL + (p : ℚ) * env.ln N
        let acc' := if ltTop BIC acc.1 then (some BIC, model) else acc
        let r := bicLoop env s rest acc'
        (r.1, num_compoments :: r.2)

/-- `SelectorBIC.select()`: `lowest_BIC` starts at `float('inf')` and
`best_model` at `self.base_model(self.min_n_components)`. -/
def selectBIC (env : Env) (s : Selector) : Except PyErr (Option Model) × List Nat :=
  bicLoop env s (n_components_range s) (none, base_model env s s.min_n_components)

/-! ## SelectorDIC -/

/-- The words scored in the DIC anti-likelihood comprehension:
`[word for word in list(self.hwords.keys()) if word != self.this_word]`
paired with their concatenated data `self.hwords[word]`. -/
def other_words (s : Selector) : List (String × XL) :=
  s.hwords.filter (fun p => p.1 != s.this_word)

/-- The anti-likelihood term of `SelectorDIC.select`:
`statistics.mean([model.score(self.hwords[word][0], self.hwords[word][1])
for word in list(self.hwords.keys()) if word != self.this_word])`.
This expression is *outside* the `try` of the loop body, so a scoring
exception propagates, and `statistics.mean` of an empty list raises
`StatisticsError`. -/
def DIC_anti (env : Env) (s : Selector) (model : Option Model) : Except PyErr ℚ :=
  match mapExcept (fun p => scoreOpt env model p.2) (other_words s) with
  | .error e => .error e
  | .ok [] => .error .statisticsError
  | .ok scores => .ok (statistics_mean scores)

/-- The loop of `SelectorDIC.select`, carrying `(highest_DIC, best_model)`
with `highest_DIC` starting at `float('-inf')`. -/
def dicLoop (env : Env) (s : Selector) :
    List Nat → LogL → Option Model → Except PyErr (Option Model)
  | [], _, best => .ok best
  | num_compoments :: rest, highest, best =>
    let model := base_model env s num_compoments
    match scoreOpt env model s.xl with
    | .error _ => .ok best   -- `except: break`
    | .ok logL =>
      match DIC_anti env s model with
      | .error e => .error e
      | .ok anti =>
        let DIC := logL - anti
        if lgt (some DIC) highest then dicLoop env s rest (some DIC) model
        else dicLoop env s rest highest best

/-- `SelectorDIC.select()`. -/
def selectDIC (env : Env) (s : Selector) : Except PyErr (Option Model) :=
  dicLoop env s (n_components_range s) none (base_model env s s.min_n_components)

/-! ## SelectorCV -/

/-- `asl_utils.combine_sequences`.  Modelled from the spec: `asl_utils` is
part of the repository but not under `src/`; §3 of the spec describes the
derived `ConcatenatedSequences` as "a single flattened feature matrix plus a
parallel list of per-sequence lengths" recomputed for the selected training
subset, with invariant `sum(lengths) == number of rows`.  The indices handed
over by the partitioner are always in range. -/
def combine_sequences (idx : List Nat) (sequences : List (List (List ℚ))) : XL :=
  let sel := idx.filterMap (fun i => sequences.get? i)
  { X := sel.flatten, lengths := sel.map List.length }

/-- The test-index blocks of sklearn's `KFold`: consecutive blocks, the
first `n_samples % n_splits` of size `n_samples / n_splits + 1`, the rest of
size `n_samples / n_splits`. -/
def kfold_sizes (n_splits n_samples : Nat) : List Nat :=
  (List.range n_splits).map
    (fun i => n_samples / n_splits + if i < n_samples % n_splits then 1 else 0)

/-- Turn a list of block sizes into consecutive index blocks starting at
`start`. -/
def kfold_blocks : List Nat → Nat → List (List Nat)
  | [], _ => []
  | sz :: rest, start => List.range' start sz :: kfold_blocks rest (start + sz)

/-- The folds produced by sklearn's `KFold(n_splits).split` on `n_samples`
items (`shuffle=False`): each fold is `(train_indices, test_indices)` with
consecutive test blocks and the complementary indices, in increasing order,
as training indices. -/
def kfold_folds (n_splits n_samples : Nat) : List (List Nat × List Nat) :=
  (kfold_blocks (kfold_sizes n_splits n_samples) 0).map
    (fun tb => ((List.range n_samples).filter (fun i => !(tb.contains i)), tb))

/-- sklearn's `KFold(n_splits).split(X)` (the external `SequencePartitioner`):
raises `ValueError` when `n_splits` exceeds the number of samples, otherwise
yields the folds.  `KFold()` in the source uses the default `n_splits = 5`
(the spec's "default 5"). -/
def kfold_split (n_splits n_samples : Nat) : Except PyErr (List (List Nat × List Nat)) :=
  if n_samples < n_splits then .error .valueError
  else .ok (kfold_folds n_splits n_samples)

/-- The inner (per-fold) loop of `SelectorCV.select` for state count
`num_compoments`: for each fold, set `self.X, self.lengths` to the
concatenated training split, fit, and score on the concatenated test split
(`except: logL = float('-inf')`), tracking `(highest_CV,
best_num_components)`.  Returns the mutated selector and the accumulator. -/
def cvFoldLoop (env : Env) (num_compoments : Nat) :
    List (List Nat × List Nat) → Selector → LogL → Nat → Selector × LogL × Nat
  | [], s, highest, best => (s, highest, best)
  | fold :: rest, s, highest, best =>
    let xtrain := combine_sequences fold.1 s.sequences
    let xtest := combine_sequences fold.2 s.sequences
    let s' := { s with xl := xtrain }
    let model := base_model env s' num_compoments
    let logL : LogL :=
      match scoreOpt env model xtest with
      | .ok q => some q
      | .error _ => none
    if lgt logL highest then cvFoldLoop env num_compoments rest s' logL num_compoments
    else cvFoldLoop env num_compoments rest s' highest best

/-- Result of the outer loop of `SelectorCV.select`: an early `return`
(the `< 3` branch), a propagating exception, or fall-through to the final
refit.  Each constructor carries the selector state at that point and the
number of times the partitioner was invoked. -/
inductive CVLoopResult where
  | ret (m : Option Model) (s : Selector) (splits : Nat)
  | err (e : PyErr) (s : Selector) (splits : Nat)
  | done (s : Selector) (highest : LogL) (best : Nat) (splits : Nat)

/-- The outer loop of `SelectorCV.select` over `n_components_range`. -/
def cvOuterLoop (env : Env) :
    List Nat → Selector → LogL → Nat → Nat → CVLoopResult
  | [], s, highest, best, splits => .done s highest best splits
  | num_compoments :: rest, s, highest, best, splits =>
    if s.sequences.length < 3 then .ret (base_model env s 3) s splits
    else
      match kfold_split 5 s.sequences.length with
      | .error e => .err e s (splits + 1)
      | .ok folds =>
        match cvFoldLoop env num_compoments folds s highest best with
        | (s', highest', best') => cvOuterLoop env rest s' highest' best' (splits + 1)

/-- `SelectorCV.select()`.  Returns the result (a model, or a propagating
exception), the final selector state (the source mutates
`self.X, self.lengths` in place), and the number of partitioner
invocations (instrumentation; it does not influence the result). -/
def cvSelect (env : Env) (s : Selector) :
    Except PyErr (Option Model) × Selector × Nat :=
  match cvOuterLoop env (n_components_range s) s none s.min_n_components 0 with
  | .ret m s' k => (.ok m, s', k)
  | .err e s' k => (.error e, s', k)
  | .done s' _ best k =>
    match s'.hwords.lookup s'.this_word with
    | none => (.error .keyError, s', k)   -- `self.hwords[self.this_word]`
    | some xl =>
      let s'' := { s' with xl := xl }
      (.ok (base_model env s'' best), s'', k)

/-! ## Recognizer (`src/my_recognizer.py`) -/

/-- The test set.  Modelled from the spec: `asl_data.SinglesData` is part of
the repository but not under `src/`; §6 of the spec describes it as "test
set exposing `numItems` and `getAllConcatenated(i) -> (matrix, lengths)`",
with items ordered by `word_id`.  `num_items` is the number of items and
`get_all_Xlengths()` maps each `i < num_items` to its data. -/
structure TestSet where
  items : List XL

/-- `test_set.num_items`. -/
def TestSet.num_items (ts : TestSet) : Nat := ts.items.length

/-- The log-likelihood recorded for one word on one test item:
`try: logL = models[word].score(X, lengths) except: logL = float('-inf')`.
A `None` model raises `AttributeError`, which the bare `except` also
catches. -/
def llOf (env : Env) (model : Option Model) (xl : XL) : LogL :=
  match scoreOpt env model xl with
  | .ok q => some q
  | .error _ => none

/-- The per-item score dict `test_word_logL_dict`, in dict insertion order
(= iteration order of `list(models.keys())`). -/
def scoreItem (env : Env) (models : List (String × Option Model)) (xl : XL) :
    List (String × LogL) :=
  models.map (fun p => (p.1, llOf env p.2 xl))

/-- Insert an entry into a descending-sorted list, after all entries with a
score not strictly below it (this placement is what makes the sort
stable). -/
def insortDesc (a : String × LogL) : List (String × LogL) → List (String × LogL)
  | [] => [a]
  | b :: l => if lgt a.2 b.2 then a :: b :: l else b :: insortDesc a l

/-- `sorted(test_word_logL_dict.items(), key=lambda kv: kv[1], reverse=True)`:
the stable sort of the entries, descending by score (Python's `sorted` is
stable; the unique stable descending sort is modelled by stable insertion
in iteration order). -/
def sortDesc (d : List (String × LogL)) : List (String × LogL) :=
  d.foldl (fun acc a => insortDesc a acc) []

/-- The loop of `recognize` over the test items, accumulating
`probabilities` and `guesses` (kept in reverse, appended at the end). -/
def recognizeLoop (env : Env) (models : List (String × Option Model)) :
    List XL → List (List (String × LogL)) → List String →
    Except PyErr (List (List (String × LogL)) × List String)
  | [], ps, gs => .ok (ps.reverse, gs.reverse)
  | xl :: rest, ps, gs =>
    let d := scoreItem env models xl
    match (sortDesc d).head? with
    | none => .error .indexError   -- `sorted(...)[0]` on an empty dict
    | some kv => recognizeLoop env models rest (d :: ps) (kv.1 :: gs)

/-- `recognize(models, test_set)`. -/
def recognize (env : Env) (models : List (String × Option Model)) (ts : TestSet) :
    Except PyErr (List (List (String × LogL)) × List String) :=
  recognizeLoop env models ts.items [] []

/-- The guess emitted for one test item:
`sorted(test_word_logL_dict.items(), key=lambda kv: kv[1], reverse=True)[0][0]`
(the default `""` is never reached when the model mapping is non-empty). -/
def guessOf (env : Env) (models : List (String × Option Model)) (xl : XL) : String :=
  match (sortDesc (scoreItem env models xl)).head? with
  | some kv => kv.1
  | none => ""

/-! ## Specification-side definitions

These follow the spec's wording, to be compared with the translations of
the code above. -/

/-- The BIC score as the spec words it: `BIC = -2*logL + p*ln(N)` with
`p = n*(n-1) + 2*n*d`, `d` the feature dimensionality (the width of the
first row of the concatenated matrix) and `N` the number of training
sequences. -/
def bic_spec (env : Env) (s : Selector) (logL : ℚ) (n : Nat) : ℚ :=
  -2 * logL +
    ((n * (n - 1) + 2 * n * (s.xl.X.headD []).length : Nat) : ℚ) *
      env.ln s.xl.lengths.length

/-- Running strict minimum with first-seen tie-break over `(index, score)`
pairs, starting from an accumulator (`none` is the initial
`float('inf')`). -/
def foldMin (l : List (Nat × ℚ)) (acc : Option ℚ × Nat) : Option ℚ × Nat :=
  l.foldl (fun acc p => if ltTop p.2 acc.1 then (some p.2, p.1) else acc) acc

/-- The score of one cross-validation fold for state count `n`, as the spec
words it: concatenate the train-index sequences, fit on them, score on the
concatenated held-out test sequences; a failure yields negative infinity. -/
def cv_fold_score (env : Env) (sequences : List (List (List ℚ))) (n : Nat)
    (fold : List Nat × List Nat) : LogL :=
  match scoreOpt env (fitXL env (combine_sequences fold.1 sequences) n)
      (combine_sequences fold.2 sequences) with
  | .ok q => some q
  | .error _ => none

/-- The whole n-by-fold grid of the cross-validation search: every candidate
state count paired with each of its fold scores, in search order. -/
def cv_grid (env : Env) (s : Selector) : List (Nat × LogL) :=
  (n_components_range s).flatMap
    (fun n => (kfold_folds 5 s.sequences.length).map
      (fun f => (n, cv_fold_score env s.sequences n f)))

/-- The winner of the cross-validation search as the spec words it: a single
running maximum (strict `>`) over the entire n-by-fold grid, starting from
`float('-inf')` and the minimum state count. -/
def cv_grid_winner (grid : List (Nat × LogL)) (n0 : Nat) : Nat :=
  (grid.foldl (fun acc p => if lgt p.2 acc.1 then (p.2, p.1) else acc)
    ((none : LogL), n0)).2

/-- Replace the concatenated data stored for the target word itself in
`hwords` (used to state that the DIC anti-likelihood ignores the target
word's own data). -/
def set_own_data (s : Selector) (xl' : XL) : Selector :=
  { s with hwords := s.hwords.map (fun p => if p.1 == s.this_word then (p.1, xl') else p) }

/-! ## Concrete fixtures for witnesses and counterexamples -/

/-- An environment in which every fit succeeds (the model handle records the
state count) and every score succeeds with the model handle as value. -/
def env0 : Env :=
  { trainer := fun _ n => Except.ok n
    scorer := fun m _ => Except.ok (m : ℚ)
    ln := fun n => (n : ℚ) }

/-- Sample concatenated data. -/
def xlA : XL := { X := [[1, 2], [3, 4], [5, 6]], lengths := [2, 1] }

/-- More sample concatenated data. -/
def xlB : XL := { X := [[0, 0]], lengths := [1] }

/-- A selector over a word with three example sequences. -/
def sCV3 : Selector :=
  { hwords := [("A", xlA)]
    sequences := [[[1]], [[2]], [[3]]]
    xl := xlA
    this_word := "A"
    n_constant := 3
    min_n_components := 2
    max_n_components := 3 }

/-- An environment whose scorer raises on `xlB` (word B's data) and succeeds
everywhere else. -/
def envC3 : Env :=
  { trainer := fun _ n => Except.ok n
    scorer := fun _ xl => if xl = xlB then Except.error .scoreError else Except.ok 0
    ln := fun n => (n : ℚ) }

/-- A DIC selector for word A in a corpus that also contains word B. -/
def sC3 : Selector :=
  { hwords := [("A", xlA), ("B", xlB)]
    sequences := [[[1]], [[2]], [[3]]]
    xl := xlA
    this_word := "A"
    n_constant := 3
    min_n_components := 2
    max_n_components := 3 }

/-- A selector over a word with two example sequences and an *empty* search
range (`min_n_components > max_n_components`). -/
def sC7bad : Selector :=
  { hwords := [("A", xlA)]
    sequences := [[[1]], [[2]]]
    xl := xlA
    this_word := "A"
    n_constant := 3
    min_n_components := 5
    max_n_components := 4 }

/-- A selector over a word with two example sequences and a non-empty search
range. -/
def sC7 : Selector :=
  { hwords := [("A", xlA)]
    sequences := [[[1]], [[2]]]
    xl := xlA
    this_word := "A"
    n_constant := 3
    min_n_components := 2
    max_n_components := 10 }

/-- A one-item test set. -/
def tsOne : TestSet := { items := [xlA] }

/-- An environment in which every fit raises (and is caught), while scoring
a (never produced) model would succeed. -/
def envFail : Env :=
  { trainer := fun _ _ => Except.error .fitError
    scorer := fun m _ => Except.ok (m : ℚ)
    ln := fun n => (n : ℚ) }

/-- A selector over a word with five example sequences (enough for the
default five folds). -/
def sCV5 : Selector :=
  { hwords := [("A", xlA), ("B", xlB)]
    sequences := [[[1, 2]], [[3, 4]], [[5, 6]], [[7, 8]], [[9, 10]]]
    xl := xlA
    this_word := "A"
    n_constant := 3
    min_n_components := 2
    max_n_components := 4 }

/-- A selector over a word with four example sequences. -/
def sCV4 : Selector :=
  { hwords := [("A", xlA)]
    sequences := [[[1]], [[2]], [[3]], [[4]]]
    xl := xlA
    this_word := "A"
    n_constant := 3
    min_n_components := 2
    max_n_components := 3 }

/-! ## Claim theorems -/

/-- C6: for every state count, `base_model` either returns the trained model
produced by the external fitter, or catches the fitting failure and returns
`None`; by its result type (`Option Model`, not `Except`) it never
propagates an error to the caller. -/
theorem base_model_contract (env : Env) (s : Selector) (num_states : Nat) :
    (∃ m, base_model env s num_states = some m ∧
        env.trainer s.xl num_states = Except.ok m)
    ∨ (∃ e, base_model env s num_states = none ∧
        env.trainer s.xl num_states = Except.error e) := by
  cases h : env.trainer s.xl num_states with
  | ok m => exact Or.inl ⟨m, by simp [base_model, fitXL, h], rfl⟩
  | error e => exact Or.inr ⟨e, by simp [base_model, fitXL, h], rfl⟩

/-- C2 (failing input): for a word with three sequences and a non-empty
search range, `SelectorCV.select()` invokes sklearn's `KFold` with its
default `n_splits = 5`, whose `split` raises `ValueError` because
`5 > 3`; the exception propagates out of `select()`. -/
theorem cvSelect_three_sequences_raises :
    cvSelect env0 sCV3 = (Except.error PyErr.valueError, sCV3, 1) := rfl

/-- C3 (failing input): in `SelectorDIC.select()`, the anti-likelihood list
comprehension sits outside the `try`, so a scoring error on another word's
data propagates out of `select()` instead of being contained. -/
theorem selectDIC_propagates_score_error :
    selectDIC envC3 sC3 = Except.error PyErr.scoreError := rfl

/-- C5 (counterexample): with an empty word-to-model mapping and a
non-empty test set, `recognize` raises `IndexError` at
`sorted(...)[0]` instead of returning the two lists. -/
theorem recognize_empty_models_raises :
    recognize env0 [] tsOne = Except.error PyErr.indexError := rfl

/-- C7 (counterexample): with an empty search range
(`min_n_components = 5 > 4 = max_n_components`), the `< 3` short-circuit
inside the loop body is never reached, and for a word with two sequences
`SelectorCV.select()` returns a fit at `min_n_components = 5`, not the
claimed `fit(3)`. -/
theorem cvSelect_empty_range_not_fit3 :
    (cvSelect env0 sC7bad).1 ≠ Except.ok (base_model env0 sC7bad 3) := by decide

/-- C7 (amended): for every word with fewer than 3 example sequences, as
long as the search range is non-empty, `SelectorCV.select()` immediately
returns `fit(3)` on the data active at entry (the word's full concatenated
data), leaves the selector state untouched, and never invokes the
partitioner (the invocation count is 0). -/
theorem cvSelect_short_circuit (env : Env) (s : Selector)
    (hlt : s.sequences.length < 3)
    (hmin : s.min_n_components ≤ s.max_n_components) :
    cvSelect env s = (Except.ok (base_model env s 3), s, 0) := by
  obtain ⟨k, hk⟩ : ∃ k, s.max_n_components + 1 - s.min_n_components = k + 1 :=
    ⟨s.max_n_components - s.min_n_components, by omega⟩
  simp [cvSelect, n_components_range, hk, List.range'_succ, cvOuterLoop, hlt]

/-- Witness for C7: a word with two sequences and search range `[2, 10]`. -/
theorem cvSelect_short_circuit_witness :
    cvSelect env0 sC7 = (Except.ok (base_model env0 sC7 3), sC7, 0) :=
  cvSelect_short_circuit env0 sC7 (by decide) (by decide)

/-! ### Helper lemmas for the DIC claims -/

theorem filter_map_set_own (w : String) (xl' : XL) (l : List (String × XL)) :
    (l.map (fun p => if p.1 == w then (p.1, xl') else p)).filter (fun p => p.1 != w)
      = l.filter (fun p => p.1 != w) := by
  induction l with
  | nil => rfl
  | cons p l ih =>
    by_cases h : p.1 = w
    · have hb : (p.1 == w) = true := by simp [h]
      have hb2 : (p.1 != w) = false := by simp [h]
      rw [List.map_cons, List.filter_cons, List.filter_cons, hb, hb2]
      have hb3 : (((w, xl') : String × XL).1 != w) = false := by simp
      simp only [if_true, hb3, Bool.false_eq_true, if_false, ih]
      simp [hb2]
    · have hb : (p.1 == w) = false := by simp [h]
      have hb2 : (p.1 != w) = true := by simp [h]
      rw [List.map_cons, List.filter_cons, List.filter_cons, hb, hb2]
      simp only [Bool.false_eq_true, if_false, if_true, ih]
      simp [hb2]

theorem other_words_set_own_data (s : Selector) (xl' : XL) :
    other_words (set_own_data s xl') = other_words s :=
  filter_map_set_own s.this_word xl' s.hwords

theorem DIC_anti_set_own_data (env : Env) (s : Selector) (xl' : XL) (model : Option Model) :
    DIC_anti env (set_own_data s xl') model = DIC_anti env s model := by
  unfold DIC_anti
  rw [other_words_set_own_data]

theorem dicLoop_set_own_data (env : Env) (s : Selector) (xl' : XL) (l : List Nat) :
    ∀ (h : LogL) (b : Option Model),
      dicLoop env (set_own_data s xl') l h b = dicLoop env s l h b := by
  induction l with
  | nil => intro h b; rfl
  | cons n rest ih =>
    intro h b
    have h1 : base_model env (set_own_data s xl') n = base_model env s n := rfl
    have h2 : (set_own_data s xl').xl = s.xl := rfl
    simp only [dicLoop, h1, h2, DIC_anti_set_own_data, ih]

theorem mapExcept_ok {α β : Type} (f : α → Except PyErr β) (g : α → β) :
    ∀ l : List α, (∀ a ∈ l, f a = .ok (g a)) → mapExcept f l = .ok (l.map g) := by
  intro l
  induction l with
  | nil => intro _; rfl
  | cons a t ih =>
    intro h
    simp [mapExcept, h a (by simp), ih (fun b hb => h b (by simp [hb]))]

/-- C9: the DIC anti-likelihood step scores the candidate model against the
data of every word other than the target word: the whole of
`SelectorDIC.select()` is unchanged if the target word's own entry in
`hwords` is replaced by arbitrary data, and when all those scores succeed
the anti-likelihood term is exactly the mean of the scores over
`other_words` (the corpus entries whose key differs from `this_word`). -/
theorem selectDIC_anti_excludes_target (env : Env) (s : Selector) (m : Model)
    (f : String × XL → ℚ) :
    (∀ xl', selectDIC env (set_own_data s xl') = selectDIC env s)
    ∧ ((∀ p ∈ other_words s, env.scorer m p.2 = Except.ok (f p)) →
        other_words s ≠ [] →
        DIC_anti env s (some m) =
          Except.ok (statistics_mean ((other_words s).map f))) := by
  constructor
  · intro xl'
    have h1 : n_components_range (set_own_data s xl') = n_components_range s := rfl
    have h2 : base_model env (set_own_data s xl') (set_own_data s xl').min_n_components
        = base_model env s s.min_n_components := rfl
    simp only [selectDIC, h1, h2, dicLoop_set_own_data]
  · intro hsc hne
    have hmap : mapExcept (fun p => scoreOpt env (some m) p.2) (other_words s)
        = .ok ((other_words s).map f) :=
      mapExcept_ok _ f _ (fun p hp => hsc p hp)
    obtain ⟨p0, rest, hrw⟩ := List.exists_cons_of_ne_nil hne
    rw [hrw] at hmap
    simp [DIC_anti, hrw, hmap]

/-- Witness for C9 at a concrete corpus with one other word. -/
theorem selectDIC_anti_excludes_target_witness :
    DIC_anti env0 sC3 (some 1) =
      Except.ok (statistics_mean ((other_words sC3).map (fun _ => (1 : ℚ)))) :=
  (selectDIC_anti_excludes_target env0 sC3 1 (fun _ => (1 : ℚ))).2
    (by decide) (by decide)

/-- C10: when the per-word data mapping holds no word other than the target
and the first candidate fits and scores, the DIC anti-likelihood list is
empty and `statistics.mean([])` raises `StatisticsError`, which propagates
out of `select()`. -/
theorem selectDIC_sole_word_raises (env : Env) (s : Selector) (m : Model) (q : ℚ)
    (hw : other_words s = [])
    (hmin : s.min_n_components ≤ s.max_n_components)
    (hfit : base_model env s s.min_n_components = some m)
    (hscore : env.scorer m s.xl = Except.ok q) :
    selectDIC env s = Except.error PyErr.statisticsError := by
  obtain ⟨k, hk⟩ : ∃ k, s.max_n_components + 1 - s.min_n_components = k + 1 :=
    ⟨s.max_n_components - s.min_n_components, by omega⟩
  simp [selectDIC, n_components_range, hk, List.range'_succ, dicLoop, hfit,
    scoreOpt, hscore, DIC_anti, hw, mapExcept]

/-- Witness for C10: a corpus holding only the target word. -/
theorem selectDIC_sole_word_raises_witness :
    selectDIC env0 sCV3 = Except.error PyErr.statisticsError :=
  selectDIC_sole_word_raises env0 sCV3 2 2 rfl (by decide) rfl rfl

/-! ### Helper lemmas for the BIC claims -/

theorem foldMin_cons (p : Nat × ℚ) (l : List (Nat × ℚ)) (acc : Option ℚ × Nat) :
    foldMin (p :: l) acc = foldMin l (if ltTop p.2 acc.1 then (some p.2, p.1) else acc) := rfl

theorem foldMin_go : ∀ (l : List (Nat × ℚ)), l.Pairwise (fun p q => p.1 < q.1) →
    ∀ (v : ℚ) (n : Nat),
    (foldMin l (some v, n) = (some v, n) ∧ ∀ q ∈ l, v ≤ q.2)
    ∨ (∃ p, p ∈ l ∧ foldMin l (some v, n) = (some p.2, p.1) ∧ p.2 < v
        ∧ (∀ q ∈ l, p.2 ≤ q.2) ∧ (∀ q ∈ l, q.1 < p.1 → p.2 < q.2)) := by
  intro l
  induction l with
  | nil => intro _ v n; exact Or.inl ⟨rfl, by simp⟩
  | cons p l ih =>
    intro hs v n
    obtain ⟨h1, h2⟩ := List.pairwise_cons.mp hs
    rw [foldMin_cons]
    by_cases hlt : p.2 < v
    · rw [if_pos (by simp [ltTop, hlt])]
      rcases ih h2 p.2 p.1 with ⟨heq, hall⟩ | ⟨r, hr, heq, hrlt, hall, hfirst⟩
      · refine Or.inr ⟨p, by simp, heq, hlt, ?_, ?_⟩
        · intro q hq
          rcases List.mem_cons.mp hq with rfl | hq'
          · exact le_refl _
          · exact hall q hq'
        · intro q hq hqlt
          rcases List.mem_cons.mp hq with rfl | hq'
          · exact absurd hqlt (lt_irrefl _)
          · exact absurd hqlt (not_lt.mpr (le_of_lt (h1 q hq')))
      · refine Or.inr ⟨r, List.mem_cons_of_mem _ hr, heq, lt_trans hrlt hlt, ?_, ?_⟩
        · intro q hq
          rcases List.mem_cons.mp hq with rfl | hq'
          · exact le_of_lt hrlt
          · exact hall q hq'
        · intro q hq hqlt
          rcases List.mem_cons.mp hq with rfl | hq'
          · exact hrlt
          · exact hfirst q hq' hqlt
    · rw [if_neg (by simp [ltTop, hlt])]
      rcases ih h2 v n with ⟨heq, hall⟩ | ⟨r, hr, heq, hrlt, hall, hfirst⟩
      · refine Or.inl ⟨heq, ?_⟩
        intro q hq
        rcases List.mem_cons.mp hq with rfl | hq'
        · exact le_of_not_lt hlt
        · exact hall q hq'
      · refine Or.inr ⟨r, List.mem_cons_of_mem _ hr, heq, hrlt, ?_, ?_⟩
        · intro q hq
          rcases List.mem_cons.mp hq with rfl | hq'
          · exact le_of_lt (lt_of_lt_of_le hrlt (le_of_not_lt hlt))
          · exact hall q hq'
        · intro q hq hqlt
          rcases List.mem_cons.mp hq with rfl | hq'
          · exact lt_of_lt_of_le hrlt (le_of_not_lt hlt)
          · exact hfirst q hq' hqlt

theorem foldMin_spec (l : List (Nat × ℚ)) (hl : l ≠ [])
    (hs : l.Pairwise (fun p q => p.1 < q.1)) (n0 : Nat) :
    ∃ p, p ∈ l ∧ foldMin l (none, n0) = (some p.2, p.1)
      ∧ (∀ q ∈ l, p.2 ≤ q.2) ∧ (∀ q ∈ l, q.1 < p.1 → p.2 < q.2) := by
  obtain ⟨p, t, rfl⟩ := List.exists_cons_of_ne_nil hl
  obtain ⟨h1, h2⟩ := List.pairwise_cons.mp hs
  have hstep : foldMin (p :: t) (none, n0) = foldMin t (some p.2, p.1) := by
    rw [foldMin_cons, if_pos (by simp [ltTop])]
  rw [hstep]
  rcases foldMin_go t h2 p.2 p.1 with ⟨heq, hall⟩ | ⟨r, hr, heq, hrlt, hall, hfirst⟩
  · refine ⟨p, by simp, heq, ?_, ?_⟩
    · intro q hq
      rcases List.mem_cons.mp hq with rfl | hq'
      · exact le_refl _
      · exact hall q hq'
    · intro q hq hqlt
      rcases List.mem_cons.mp hq with rfl | hq'
      · exact absurd hqlt (lt_irrefl _)
      · exact absurd hqlt (not_lt.mpr (le_of_lt (h1 q hq')))
  · refine ⟨r, List.mem_cons_of_mem _ hr, heq, ?_, ?_⟩
    · intro q hq
      rcases List.mem_cons.mp hq with rfl | hq'
      · exact le_of_lt hrlt
      · exact hall q hq'
    · intro q hq hqlt
      rcases List.mem_cons.mp hq with rfl | hq'
      · exact hrlt
      · exact hfirst q hq' hqlt

theorem bicLoop_all_ok (env : Env) (s : Selector) (logL : Nat → ℚ)
    (r0 : List ℚ) (t : List (List ℚ)) (hX : s.xl.X = r0 :: t) :
    ∀ (l : List Nat),
      (∀ k ∈ l, scoreOpt env (base_model env s k) s.xl = .ok (logL k)) →
    ∀ (v : Option ℚ) (n : Nat),
    bicLoop env s l (v, base_model env s n)
      = (.ok (base_model env s
          (foldMin (l.map (fun k => (k, bic_spec env s (logL k) k))) (v, n)).2), l) := by
  intro l
  induction l with
  | nil => intro _ v n; simp [bicLoop, foldMin]
  | cons k rest ih =>
    intro hok v n
    have hk0 : scoreOpt env (base_model env s k) s.xl = .ok (logL k) := hok k (by simp)
    have hok' : ∀ j ∈ rest, scoreOpt env (base_model env s j) s.xl = .ok (logL j) :=
      fun j hj => hok j (by simp [hj])
    have hbic : bic_spec env s (logL k) k
        = -2 * logL k + ((k * (k - 1) + 2 * k * r0.length : Nat) : ℚ)
            * env.ln s.xl.lengths.length := by
      simp [bic_spec, hX]
    simp only [bicLoop, hk0, hX, List.map_cons, foldMin_cons, hbic]
    by_cases hc : ltTop (-2 * logL k + ((k * (k - 1) + 2 * k * r0.length : Nat) : ℚ)
        * env.ln s.xl.lengths.length) v = true
    · rw [if_pos hc, if_pos hc, ih hok' _ k]
    · rw [if_neg hc, if_neg hc, ih hok' _ n]

/-- C4: in `SelectorBIC.select()`, when every candidate in the search range
fits and scores, the returned model is the fit at the state count whose
spec-side score `BIC = -2*logL + p*ln(N)`, `p = n*(n-1) + 2*n*d`, is
minimal, and among equal minima the smallest (first-seen) candidate wins;
and whenever scoring the very first candidate raises, the fallback returned
is `fit(min_n_components)` (possibly `None`). -/
theorem selectBIC_min_bic (env : Env) (s : Selector) (logL : Nat → ℚ)
    (hmin : s.min_n_components ≤ s.max_n_components)
    (hX : s.xl.X ≠ []) :
    ((∀ n ∈ n_components_range s,
        scoreOpt env (base_model env s n) s.xl = Except.ok (logL n)) →
      ∃ nstar, nstar ∈ n_components_range s
        ∧ (selectBIC env s).1 = Except.ok (base_model env s nstar)
        ∧ (∀ n ∈ n_components_range s,
            bic_spec env s (logL nstar) nstar ≤ bic_spec env s (logL n) n)
        ∧ (∀ n ∈ n_components_range s, n < nstar →
            bic_spec env s (logL nstar) nstar < bic_spec env s (logL n) n))
    ∧ (∀ e, scoreOpt env (base_model env s s.min_n_components) s.xl = Except.error e →
        (selectBIC env s).1 = Except.ok (base_model env s s.min_n_components)) := by
  constructor
  · intro hok
    obtain ⟨r0, t, hXeq⟩ := List.exists_cons_of_ne_nil hX
    have hrun := bicLoop_all_ok env s logL r0 t hXeq (n_components_range s) hok
      none s.min_n_components
    have hne : (n_components_range s).map (fun k => (k, bic_spec env s (logL k) k)) ≠ [] := by
      intro hcon
      have hlen := congrArg List.length hcon
      simp [n_components_range] at hlen
      omega
    have hpw : ((n_components_range s).map
        (fun k => (k, bic_spec env s (logL k) k))).Pairwise (fun p q => p.1 < q.1) := by
      rw [List.pairwise_map]
      exact List.pairwise_lt_range' _ _
    obtain ⟨p, hp, heq, hall, hfirst⟩ := foldMin_spec _ hne hpw s.min_n_components
    obtain ⟨nstar, hnstar, hpeq⟩ := List.mem_map.mp hp
    subst hpeq
    refine ⟨nstar, hnstar, ?_, ?_, ?_⟩
    · show (bicLoop env s (n_components_range s)
        (none, base_model env s s.min_n_components)).1 = _
      rw [hrun, heq]
    · intro n hn
      simpa using hall (n, bic_spec env s (logL n) n) (List.mem_map.mpr ⟨n, hn, rfl⟩)
    · intro n hn hlt
      simpa using hfirst (n, bic_spec env s (logL n) n) (List.mem_map.mpr ⟨n, hn, rfl⟩) hlt
  · intro e herr
    obtain ⟨c, hc⟩ : ∃ c, s.max_n_components + 1 - s.min_n_components = c + 1 :=
      ⟨s.max_n_components - s.min_n_components, by omega⟩
    show (bicLoop env s (n_components_range s)
      (none, base_model env s s.min_n_components)).1 = _
    rw [n_components_range, hc, List.range'_succ]
    simp [bicLoop, herr]

/-- Witness for C4 (fallback clause): every fit fails, so scoring the first
candidate raises and the result is the (null) `fit(min_n_components)`. -/
theorem selectBIC_min_bic_witness :
    (selectBIC envFail sCV3).1
      = Except.ok (base_model envFail sCV3 sCV3.min_n_components) :=
  (selectBIC_min_bic envFail sCV3 (fun _ => 0) (by decide) (by decide)).2
    PyErr.attributeError rfl

theorem bicLoop_trace_bound (env : Env) (s : Selector) (nfail : Nat)
    (hfail : base_model env s nfail = none) :
    ∀ (l : List Nat), l.Pairwise (· < ·) → nfail ∈ l →
    ∀ (acc : Option ℚ × Option Model), ∀ n ∈ (bicLoop env s l acc).2, n ≤ nfail := by
  intro l
  induction l with
  | nil => intro _ h; simp at h
  | cons k rest ih =>
    intro hpw hmem acc n hn
    obtain ⟨h1, h2⟩ := List.pairwise_cons.mp hpw
    have hkle : k ≤ nfail := by
      rcases List.mem_cons.mp hmem with rfl | hm
      · exact le_refl _
      · exact le_of_lt (h1 _ hm)
    by_cases hk : k = nfail
    · subst hk
      have hsc : scoreOpt env (base_model env s k) s.xl = .error .attributeError := by
        rw [hfail]; rfl
      simp only [bicLoop, hsc] at hn
      simp at hn
      omega
    · have hm : nfail ∈ rest := by
        rcases List.mem_cons.mp hmem with rfl | hm
        · exact absurd rfl hk
        · exact hm
      cases hsc : scoreOpt env (base_model env s k) s.xl with
      | error e =>
        simp only [bicLoop, hsc] at hn
        simp at hn
        omega
      | ok L =>
        cases hXc : s.xl.X with
        | nil =>
          simp only [bicLoop, hsc, hXc] at hn
          simp at hn
          omega
        | cons r0 tl =>
          simp only [bicLoop, hsc, hXc] at hn
          rcases List.mem_cons.mp hn with rfl | hn'
          · exact hkle
          · exact ih h2 hm _ n hn'

/-- C8: once a candidate state count in the search range fails to fit, the
BIC search aborts: every state count for which a fit is attempted inside the
loop is at most the failing one, so no larger candidate is ever
evaluated. -/
theorem selectBIC_early_exit (env : Env) (s : Selector) (nfail : Nat)
    (hmem : nfail ∈ n_components_range s)
    (hfail : base_model env s nfail = none) :
    ∀ n ∈ (selectBIC env s).2, n ≤ nfail := by
  have hpw : (n_components_range s).Pairwise (· < ·) := by
    rw [n_components_range]
    exact List.pairwise_lt_range' _ _
  exact fun n hn => bicLoop_trace_bound env s nfail hfail _ hpw hmem _ n hn

/-- Witness for C8: with every fit failing, only the smallest candidate is
ever attempted. -/
theorem selectBIC_early_exit_witness :
    (selectBIC envFail sCV3).2 = [2] ∧ 2 ≤ 2 :=
  ⟨rfl, selectBIC_early_exit envFail sCV3 2 (by decide) rfl 2 (by decide)⟩

/-! ### Helper lemmas for the cross-validation claims -/

theorem sequences_update (s : Selector) (xl0 : XL) :
    ({ s with xl := xl0 } : Selector).sequences = s.sequences := rfl

theorem base_model_update (env : Env) (s : Selector) (xl0 : XL) (k : Nat) :
    base_model env { s with xl := xl0 } k = fitXL env xl0 k := rfl

theorem foldl_flatMap {α β γ : Type} (f : β → α → β) (g : γ → List α) :
    ∀ (l : List γ) (init : β),
    (l.flatMap g).foldl f init = l.foldl (fun acc c => (g c).foldl f acc) init := by
  intro l
  induction l with
  | nil => intro init; rfl
  | cons c t ih => intro init; simp only [List.flatMap_cons, List.foldl_append,
      List.foldl_cons, ih]

theorem cvFoldLoop_snd (env : Env) (k : Nat) :
    ∀ (folds : List (List Nat × List Nat)) (s : Selector) (h : LogL) (b : Nat),
    (cvFoldLoop env k folds s h b).2 =
      folds.foldl (fun acc f =>
        if lgt (cv_fold_score env s.sequences k f) acc.1
        then (cv_fold_score env s.sequences k f, k) else acc) (h, b) := by
  intro folds
  induction folds with
  | nil => intro s h b; rfl
  | cons f rest ih =>
    intro s h b
    rw [List.foldl_cons]
    show (if lgt (cv_fold_score env s.sequences k f) h then
            cvFoldLoop env k rest { s with xl := combine_sequences f.1 s.sequences }
              (cv_fold_score env s.sequences k f) k
          else cvFoldLoop env k rest { s with xl := combine_sequences f.1 s.sequences } h b).2
        = _
    by_cases hc : lgt (cv_fold_score env s.sequences k f) h = true
    · rw [if_pos hc, if_pos hc,
        ih { s with xl := combine_sequences f.1 s.sequences } (cv_fold_score env s.sequences k f) k]
    · rw [if_neg hc, if_neg hc,
        ih { s with xl := combine_sequences f.1 s.sequences } h b]

theorem cvFoldLoop_fst (env : Env) (k : Nat) :
    ∀ (folds : List (List Nat × List Nat)) (s : Selector) (h : LogL) (b : Nat),
    ∃ xl0, (cvFoldLoop env k folds s h b).1 = { s with xl := xl0 } := by
  intro folds
  induction folds with
  | nil => intro s h b; exact ⟨s.xl, rfl⟩
  | cons f rest ih =>
    intro s h b
    show ∃ xl0, (if lgt (cv_fold_score env s.sequences k f) h then
        cvFoldLoop env k rest { s with xl := combine_sequences f.1 s.sequences }
          (cv_fold_score env s.sequences k f) k
      else cvFoldLoop env k rest { s with xl := combine_sequences f.1 s.sequences } h b).1
        = { s with xl := xl0 }
    by_cases hc : lgt (cv_fold_score env s.sequences k f) h = true
    · rw [if_pos hc]
      obtain ⟨xl1, hxl1⟩ :=
        ih { s with xl := combine_sequences f.1 s.sequences } (cv_fold_score env s.sequences k f) k
      exact ⟨xl1, hxl1⟩
    · rw [if_neg hc]
      obtain ⟨xl1, hxl1⟩ := ih { s with xl := combine_sequences f.1 s.sequences } h b
      exact ⟨xl1, hxl1⟩

theorem cvOuterLoop_run (env : Env) (seqs : List (List (List ℚ))) (h5 : 5 ≤ seqs.length) :
    ∀ (l : List Nat) (s : Selector), s.sequences = seqs → ∀ (h : LogL) (b k : Nat),
    ∃ xl0, cvOuterLoop env l s h b k =
      .done { s with xl := xl0 }
        ((l.flatMap (fun n => (kfold_folds 5 seqs.length).map
            (fun f => (n, cv_fold_score env seqs n f)))).foldl
          (fun acc p => if lgt p.2 acc.1 then (p.2, p.1) else acc) (h, b)).1
        ((l.flatMap (fun n => (kfold_folds 5 seqs.length).map
            (fun f => (n, cv_fold_score env seqs n f)))).foldl
          (fun acc p => if lgt p.2 acc.1 then (p.2, p.1) else acc) (h, b)).2
        (k + l.length) := by
  intro l
  induction l with
  | nil =>
    intro s hseq h b k
    exact ⟨s.xl, rfl⟩
  | cons n rest ih =>
    intro s hseq h b k
    subst hseq
    have h3 : ¬ s.sequences.length < 3 := by omega
    have h5' : ¬ s.sequences.length < 5 := by omega
    have hks : kfold_split 5 s.sequences.length
        = .ok (kfold_folds 5 s.sequences.length) := by
      simp [kfold_split, h5']
    have hstep : cvOuterLoop env (n :: rest) s h b k
        = cvOuterLoop env rest
            (cvFoldLoop env n (kfold_folds 5 s.sequences.length) s h b).1
            (cvFoldLoop env n (kfold_folds 5 s.sequences.length) s h b).2.1
            (cvFoldLoop env n (kfold_folds 5 s.sequences.length) s h b).2.2
            (k + 1) := by
      simp only [cvOuterLoop, if_neg h3, hks]
    obtain ⟨xl1, hfst⟩ := cvFoldLoop_fst env n (kfold_folds 5 s.sequences.length) s h b
    have hsnd := cvFoldLoop_snd env n (kfold_folds 5 s.sequences.length) s h b
    obtain ⟨xl2, hrest⟩ := ih { s with xl := xl1 } rfl
      ((kfold_folds 5 s.sequences.length).foldl (fun acc f =>
        if lgt (cv_fold_score env s.sequences n f) acc.1
        then (cv_fold_score env s.sequences n f, n) else acc) (h, b)).1
      ((kfold_folds 5 s.sequences.length).foldl (fun acc f =>
        if lgt (cv_fold_score env s.sequences n f) acc.1
        then (cv_fold_score env s.sequences n f, n) else acc) (h, b)).2
      (k + 1)
    refine ⟨xl2, ?_⟩
    rw [hstep, hfst, hsnd]
    have hcomp : ((n :: rest).flatMap (fun m => (kfold_folds 5 s.sequences.length).map
          (fun f => (m, cv_fold_score env s.sequences m f)))).foldl
          (fun acc p => if lgt p.2 acc.1 then (p.2, p.1) else acc) (h, b)
        = (rest.flatMap (fun m => (kfold_folds 5 s.sequences.length).map
            (fun f => (m, cv_fold_score env s.sequences m f)))).foldl
          (fun acc p => if lgt p.2 acc.1 then (p.2, p.1) else acc)
          ((kfold_folds 5 s.sequences.length).foldl (fun acc f =>
            if lgt (cv_fold_score env s.sequences n f) acc.1
            then (cv_fold_score env s.sequences n f, n) else acc) (h, b)) := by
      rw [List.flatMap_cons, List.foldl_append, List.foldl_map]
    rw [hcomp]
    have hlen : k + (n :: rest).length = k + 1 + rest.length := by
      simp only [List.length_cons]
      omega
    rw [hlen]
    exact hrest

/-- C1 (amended): for every word with at least 5 sequences,
`SelectorCV.select()` picks the winning state count by a single running
maximum of individual fold scores over the entire n-by-fold grid (not a
per-n average), then restores the word's full concatenated data from
`hwords` to `self.X, self.lengths` and returns a fresh fit at the winning
state count; the partitioner is invoked once per candidate. -/
theorem cvSelect_best_grid (env : Env) (s : Selector)
    (h5 : 5 ≤ s.sequences.length)
    (hmin : s.min_n_components ≤ s.max_n_components)
    (xlFull : XL)
    (hlook : s.hwords.lookup s.this_word = some xlFull) :
    cvSelect env s =
      (Except.ok (fitXL env xlFull
          (cv_grid_winner (cv_grid env s) s.min_n_components)),
       { s with xl := xlFull }, (n_components_range s).length) := by
  obtain ⟨xl0, hrun⟩ := cvOuterLoop_run env s.sequences h5 (n_components_range s) s rfl
    none s.min_n_components 0
  have hsel : cvSelect env s
      = (match cvOuterLoop env (n_components_range s) s none s.min_n_components 0 with
        | .ret m s' k => (Except.ok m, s', k)
        | .err e s' k => (Except.error e, s', k)
        | .done s' _ best k =>
          match s'.hwords.lookup s'.this_word with
          | none => (Except.error .keyError, s', k)
          | some xl =>
            (Except.ok (base_model env { s' with xl := xl } best),
              { s' with xl := xl }, k)) := rfl
  rw [hsel, hrun]
  have hlook' : ({ s with xl := xl0 } : Selector).hwords.lookup
      ({ s with xl := xl0 } : Selector).this_word = some xlFull := hlook
  simp only [hlook']
  have hwin : ((n_components_range s).flatMap
        (fun n => (kfold_folds 5 s.sequences.length).map
          (fun f => (n, cv_fold_score env s.sequences n f)))).foldl
        (fun acc p => if lgt p.2 acc.1 then (p.2, p.1) else acc)
        ((none : LogL), s.min_n_components)
      = ((cv_grid env s).foldl
          (fun acc p => if lgt p.2 acc.1 then (p.2, p.1) else acc)
          ((none : LogL), s.min_n_components)) := rfl
  rw [hwin]
  simp only [cv_grid_winner, base_model, fitXL, Nat.zero_add]

/-- Witness for C1 at a five-sequence word with search range `[2, 4]`. -/
theorem cvSelect_best_grid_witness :
    cvSelect env0 sCV5 =
      (Except.ok (fitXL env0 xlA
          (cv_grid_winner (cv_grid env0 sCV5) sCV5.min_n_components)),
       { sCV5 with xl := xlA }, (n_components_range sCV5).length) :=
  cvSelect_best_grid env0 sCV5 (by decide) (by decide) xlA (by decide)

/-- C1 (counterexample): for a word with four sequences (hence at least 3)
and a non-empty search range, `SelectorCV.select()` raises `ValueError`
from the default five-fold partitioner instead of returning a fit. -/
theorem cvSelect_four_sequences_raises :
    (cvSelect env0 sCV4).1 = Except.error PyErr.valueError := rfl

/-! ### Helper lemmas for the Recognizer claim -/

theorem lle_refl (a : LogL) : lle a a = true := by
  cases a <;> simp [lle, lgt]

theorem lgt_asymm {a b : LogL} (h : lgt a b = true) : lgt b a = false := by
  cases a <;> cases b <;> simp_all [lgt] <;> linarith

theorem lle_of_lgt {a b : LogL} (h : lgt a b = true) : lle b a = true := by
  simp [lle, lgt_asymm h]

theorem lle_of_not_lgt {a b : LogL} (h : ¬ lgt a b = true) : lle a b = true := by
  simp [lle]
  exact Bool.not_eq_true _ |>.mp h

theorem lle_lgt_trans {c b a : LogL} (h1 : lle c b = true) (h2 : lgt a b = true) :
    lle c a = true := by
  cases a <;> cases b <;> cases c <;> simp_all [lle, lgt] <;> linarith

theorem mem_insortDesc (a c : String × LogL) :
    ∀ l, (c ∈ insortDesc a l ↔ c = a ∨ c ∈ l) := by
  intro l
  induction l with
  | nil => simp [insortDesc]
  | cons b t ih =>
    simp only [insortDesc]
    by_cases hc : lgt a.2 b.2 = true
    · rw [if_pos hc]
      simp [List.mem_cons]
      try tauto
    · rw [if_neg hc]
      simp [List.mem_cons, ih]
      try tauto

theorem pairwise_insortDesc (a : String × LogL) :
    ∀ l, l.Pairwise (fun x y => lle y.2 x.2 = true) →
      (insortDesc a l).Pairwise (fun x y => lle y.2 x.2 = true) := by
  intro l
  induction l with
  | nil => intro _; simp [insortDesc]
  | cons b t ih =>
    intro hp
    obtain ⟨h1, h2⟩ := List.pairwise_cons.mp hp
    simp only [insortDesc]
    by_cases hc : lgt a.2 b.2 = true
    · rw [if_pos hc]
      refine List.pairwise_cons.mpr ⟨?_, hp⟩
      intro y hy
      rcases List.mem_cons.mp hy with rfl | hy'
      · exact lle_of_lgt hc
      · exact lle_lgt_trans (h1 y hy') hc
    · rw [if_neg hc]
      refine List.pairwise_cons.mpr ⟨?_, ih h2⟩
      intro y hy
      rcases (mem_insortDesc a y t).mp hy with rfl | hy'
      · exact lle_of_not_lgt hc
      · exact h1 y hy'

theorem sortAux_mem :
    ∀ (d acc : List (String × LogL)) (c : String × LogL),
    (c ∈ d.foldl (fun acc a => insortDesc a acc) acc ↔ c ∈ d ∨ c ∈ acc) := by
  intro d
  induction d with
  | nil => intro acc c; simp
  | cons a t ih =>
    intro acc c
    rw [List.foldl_cons, ih]
    simp [mem_insortDesc, List.mem_cons]
    tauto

theorem sortAux_pairwise :
    ∀ (d acc : List (String × LogL)),
      acc.Pairwise (fun x y => lle y.2 x.2 = true) →
      (d.foldl (fun acc a => insortDesc a acc) acc).Pairwise
        (fun x y => lle y.2 x.2 = true) := by
  intro d
  induction d with
  | nil => intro acc h; simpa using h
  | cons a t ih =>
    intro acc h
    rw [List.foldl_cons]
    exact ih _ (pairwise_insortDesc a acc h)

theorem mem_sortDesc (d : List (String × LogL)) (c : String × LogL) :
    c ∈ sortDesc d ↔ c ∈ d := by
  rw [sortDesc, sortAux_mem]
  simp

theorem sortDesc_pairwise (d : List (String × LogL)) :
    (sortDesc d).Pairwise (fun x y => lle y.2 x.2 = true) :=
  sortAux_pairwise d [] (by simp)

theorem sortDesc_head_max (d : List (String × LogL)) (hd : d ≠ []) :
    ∃ kv, (sortDesc d).head? = some kv ∧ kv ∈ d ∧ ∀ q ∈ d, lle q.2 kv.2 = true := by
  cases hsort : sortDesc d with
  | nil =>
    exfalso
    obtain ⟨c, t, hct⟩ := List.exists_cons_of_ne_nil hd
    have hc : c ∈ sortDesc d := (mem_sortDesc d c).mpr (by rw [hct]; simp)
    rw [hsort] at hc
    simp at hc
  | cons kv tl =>
    refine ⟨kv, rfl, ?_, ?_⟩
    · have : kv ∈ sortDesc d := by rw [hsort]; simp
      exact (mem_sortDesc d kv).mp this
    · intro q hq
      have hq' : q ∈ sortDesc d := (mem_sortDesc d q).mpr hq
      rw [hsort] at hq'
      rcases List.mem_cons.mp hq' with rfl | hq''
      · exact lle_refl _
      · have hpw := sortDesc_pairwise d
        rw [hsort] at hpw
        exact (List.pairwise_cons.mp hpw).1 q hq''

theorem lookup_of_mem_nodup :
    ∀ (d : List (String × LogL)), (d.map Prod.fst).Nodup →
    ∀ kv ∈ d, d.lookup kv.1 = some kv.2 := by
  intro d
  induction d with
  | nil => intro _ kv hkv; simp at hkv
  | cons r t ih =>
    intro hnd kv hkv
    rw [List.map_cons, List.nodup_cons] at hnd
    rcases List.mem_cons.mp hkv with rfl | hkv'
    · simp [List.lookup]
    · have hne : (kv.1 == r.1) = false := by
        have : kv.1 ∈ t.map Prod.fst := List.mem_map.mpr ⟨kv, hkv', rfl⟩
        simp only [beq_eq_false_iff_ne, ne_eq]
        intro hcon
        exact hnd.1 (hcon ▸ this)
      rw [List.lookup_cons]
      rw [hne]
      exact ih hnd.2 kv hkv'

theorem scoreItem_keys (env : Env) (models : List (String × Option Model)) (xl : XL) :
    (scoreItem env models xl).map Prod.fst = models.map Prod.fst := by
  simp [scoreItem, List.map_map]

theorem lookup_scoreItem (env : Env) (xl : XL) :
    ∀ (models : List (String × Option Model)), (models.map Prod.fst).Nodup →
    ∀ p ∈ models, (scoreItem env models xl).lookup p.1 = some (llOf env p.2 xl) := by
  intro models
  induction models with
  | nil => intro _ p hp; simp at hp
  | cons r t ih =>
    intro hnd p hp
    rw [List.map_cons, List.nodup_cons] at hnd
    rcases List.mem_cons.mp hp with rfl | hp'
    · simp [scoreItem, List.lookup]
    · have hne : (p.1 == r.1) = false := by
        have : p.1 ∈ t.map Prod.fst := List.mem_map.mpr ⟨p, hp', rfl⟩
        simp only [beq_eq_false_iff_ne, ne_eq]
        intro hcon
        exact hnd.1 (hcon ▸ this)
      show (scoreItem env (r :: t) xl).lookup p.1 = _
      rw [show scoreItem env (r :: t) xl
          = (r.1, llOf env r.2 xl) :: scoreItem env t xl from rfl]
      rw [List.lookup_cons, hne]
      exact ih hnd.2 p hp'

theorem scoreItem_ne_nil (env : Env) (models : List (String × Option Model)) (xl : XL)
    (hm : models ≠ []) : scoreItem env models xl ≠ [] := by
  intro hcon
  rw [scoreItem] at hcon
  exact hm (List.map_eq_nil_iff.mp hcon)

theorem recognizeLoop_run (env : Env) (models : List (String × Option Model))
    (hm : models ≠ []) :
    ∀ (items : List XL) (ps : List (List (String × LogL))) (gs : List String),
    recognizeLoop env models items ps gs =
      .ok (ps.reverse ++ items.map (fun xl => scoreItem env models xl),
           gs.reverse ++ items.map (fun xl => guessOf env models xl)) := by
  intro items
  induction items with
  | nil => intro ps gs; simp [recognizeLoop]
  | cons xl rest ih =>
    intro ps gs
    have hne : sortDesc (scoreItem env models xl) ≠ [] := by
      intro hcon
      obtain ⟨c, t, hct⟩ :=
        List.exists_cons_of_ne_nil (scoreItem_ne_nil env models xl hm)
      have hc : c ∈ sortDesc (scoreItem env models xl) :=
        (mem_sortDesc _ _).mpr (by rw [hct]; simp)
      rw [hcon] at hc
      simp at hc
    obtain ⟨kv, tl, hkv⟩ := List.exists_cons_of_ne_nil hne
    have hguess : guessOf env models xl = kv.1 := by simp [guessOf, hkv]
    simp only [recognizeLoop, hkv, List.head?_cons]
    rw [ih (scoreItem env models xl :: ps) (kv.1 :: gs)]
    simp [hguess]

/-- C5 (amended): for every *non-empty* word-to-model mapping,
`recognize` returns two parallel lists of length `test_set.num_items`,
ordered by test item; `probabilities[i]` maps every word of the mapping to
its log-likelihood on item `i` (negative infinity whenever scoring fails or
the word's model is null — a null model never crashes), and `guesses[i]` is
a word attaining the maximum score of `probabilities[i]`. -/
theorem recognize_spec (env : Env) (models : List (String × Option Model))
    (ts : TestSet) (hm : models ≠ []) (hnd : (models.map Prod.fst).Nodup) :
    ∃ probabilities guesses,
      recognize env models ts = Except.ok (probabilities, guesses)
      ∧ probabilities.length = ts.num_items
      ∧ guesses.length = ts.num_items
      ∧ ∀ i < ts.num_items,
          ∃ d g xl, probabilities[i]? = some d ∧ guesses[i]? = some g
            ∧ ts.items[i]? = some xl
            ∧ (∀ p ∈ models, d.lookup p.1 = some (llOf env p.2 xl))
            ∧ ∃ v, d.lookup g = some v ∧ ∀ q ∈ d, lle q.2 v = true := by
  refine ⟨ts.items.map (fun xl => scoreItem env models xl),
          ts.items.map (fun xl => guessOf env models xl), ?_,
          by simp [TestSet.num_items], by simp [TestSet.num_items], ?_⟩
  · have h := recognizeLoop_run env models hm ts.items [] []
    simpa [recognize] using h
  · intro i hi
    have hi' : i < ts.items.length := by simpa [TestSet.num_items] using hi
    have hxl : ts.items[i]? = some ts.items[i] := List.getElem?_eq_getElem hi'
    refine ⟨scoreItem env models ts.items[i], guessOf env models ts.items[i],
      ts.items[i], ?_, ?_, hxl, ?_, ?_⟩
    · rw [List.getElem?_map, hxl]
      rfl
    · rw [List.getElem?_map, hxl]
      rfl
    · intro p hp
      exact lookup_scoreItem env ts.items[i] models hnd p hp
    · obtain ⟨kv, hhead, hkvmem, hmax⟩ :=
        sortDesc_head_max (scoreItem env models ts.items[i])
          (scoreItem_ne_nil env models ts.items[i] hm)
      have hg : guessOf env models ts.items[i] = kv.1 := by simp [guessOf, hhead]
      refine ⟨kv.2, ?_, ?_⟩
      · rw [hg]
        exact lookup_of_mem_nodup _ (by rw [scoreItem_keys]; exact hnd) kv hkvmem
      · intro q hq
        exact hmax q hq

/-- Witness for C5 at a two-word mapping and a one-item test set. -/
theorem recognize_spec_witness :
    ∃ probabilities guesses,
      recognize env0 [("A", some 1), ("B", some 2)] tsOne
          = Except.ok (probabilities, guesses)
      ∧ probabilities.length = tsOne.num_items
      ∧ guesses.length = tsOne.num_items
      ∧ ∀ i < tsOne.num_items,
          ∃ d g xl, probabilities[i]? = some d ∧ guesses[i]? = some g
            ∧ tsOne.items[i]? = some xl
            ∧ (∀ p ∈ [("A", some 1), ("B", (some 2 : Option Model))],
                d.lookup p.1 = some (llOf env0 p.2 xl))
            ∧ ∃ v, d.lookup g = some v ∧ ∀ q ∈ d, lle q.2 v = true :=
  recognize_spec env0 [("A", some 1), ("B", some 2)] tsOne (by decide) (by decide)
